import Mathlib

/-!
Verification of the engram worklog chain engine against its specification.

The Rust sources (src/commands/commit.rs, src/commands/verify.rs,
src/engram/chain.rs, src/engram/draft.rs, src/engram/worklog.rs,
src/engram/summary.rs, src/utils/hash.rs) are embedded shallowly below.
Text is modelled as `List Char`; the Rust string operations the code uses
(str::lines, str::trim, substring search, the fixed regexes) are reproduced
on that representation.  The SHA-256 digest comes from the external sha2
crate, so it is a parameter `digest : List Char → List Char` of every
definition that hashes; `sha256_short` is its 8-character truncation, as in
src/utils/hash.rs.  The filesystem state a command touches is made explicit
as a record of directories and (filename, content) association lists.
-/

/-- Decidable equality for Except, used to evaluate the models on concrete
inputs. -/
instance {ε : Type u} {α : Type v} [DecidableEq ε] [DecidableEq α] :
    DecidableEq (Except ε α) := fun x y =>
  match x, y with
  | .error a, .error b =>
    match decEq a b with
    | isTrue h => isTrue (h ▸ rfl)
    | isFalse h => isFalse fun hc => h (by injection hc)
  | .error _, .ok _ => isFalse fun hc => Except.noConfusion hc
  | .ok _, .error _ => isFalse fun hc => Except.noConfusion hc
  | .ok a, .ok b =>
    match decEq a b with
    | isTrue h => isTrue (h ▸ rfl)
    | isFalse h => isFalse fun hc => h (by injection hc)

namespace Engram

/-- A decimal digit, the regex character class 0-9. -/
def isDigitCh (c : Char) : Bool :=
  decide ('0'.toNat ≤ c.toNat ∧ c.toNat ≤ '9'.toNat)

/-- A lowercase hex digit, the regex character class a-f0-9. -/
def isLowerHex (c : Char) : Bool :=
  isDigitCh c || decide ('a'.toNat ≤ c.toNat ∧ c.toNat ≤ 'f'.toNat)

/-- The Unicode White_Space property, the set stripped by Rust str::trim
(char::is_whitespace). -/
def rustIsWhitespace (c : Char) : Bool :=
  let n := c.toNat
  n == 0x09 || n == 0x0A || n == 0x0B || n == 0x0C || n == 0x0D ||
  n == 0x20 || n == 0x85 || n == 0xA0 || n == 0x1680 ||
  (decide (0x2000 ≤ n) && decide (n ≤ 0x200A)) || n == 0x2028 ||
  n == 0x2029 || n == 0x202F || n == 0x205F || n == 0x3000

/-- Rust str::trim: remove leading and trailing whitespace. -/
def rustTrim (s : List Char) : List Char :=
  ((s.dropWhile rustIsWhitespace).reverse.dropWhile rustIsWhitespace).reverse

/-- Remove one trailing carriage return, as each line yielded by Rust
str::lines does. -/
def stripTrailingCR (s : List Char) : List Char :=
  match s.reverse with
  | [] => s
  | c :: rest => if c == '\r' then rest.reverse else s

/-- Worker for `rustLines`: split at every newline, accumulating the current
line in reverse. -/
def linesGo : List Char → List Char → List (List Char)
  | [], acc => if acc.isEmpty then [] else [stripTrailingCR acc.reverse]
  | c :: cs, acc =>
    if c == '\n' then stripTrailingCR acc.reverse :: linesGo cs []
    else linesGo cs (c :: acc)

/-- Rust str::lines: split on newline, dropping a final empty fragment and
one trailing carriage return per line. -/
def rustLines (s : List Char) : List (List Char) := linesGo s []

/-- Rust str::find followed by slicing: the remainder of the text after the
first occurrence of `pat`, or none when `pat` does not occur. -/
def afterFirst (pat : List Char) : List Char → Option (List Char)
  | [] => if pat.isEmpty then some [] else none
  | c :: cs =>
    if pat.isPrefixOf (c :: cs) then some ((c :: cs).drop pat.length)
    else afterFirst pat cs

/-- Value of a string of decimal digits, as Rust str::parse::<u32> computes
it on a capture of the digit class (the six-digit captures used here never
overflow u32). -/
def digitsToNat (ds : List Char) : Nat :=
  ds.foldl (fun n c => 10 * n + (c.toNat - '0'.toNat)) 0

/-- The width-3 zero-padded decimal rendering used by commit.rs in
format!: pad with zeroes up to three characters, wider numbers unchanged. -/
def formatSeq3 (n : Nat) : List Char :=
  let ds := Nat.toDigits 10 n
  List.replicate (3 - ds.length) '0' ++ ds

/-- The constraint of chain.rs on a Previous value: the literal none or a
64-character lowercase hex string (the regex alternation). -/
def isPrevValue (v : List Char) : Bool :=
  v == "none".toList || (v.length == 64 && v.all isLowerHex)

/-- Match of one line against the chain.rs regex for the Previous field,
returning the capture. -/
def matchPreviousLine (line : List Char) : Option (List Char) :=
  if "Previous: ".toList.isPrefixOf line then
    if isPrevValue (line.drop 10) then some (line.drop 10) else none
  else none

/-- Match of one line against the chain.rs regex for the Summary field
(at least one character after the tag), returning the capture. -/
def matchSummaryLine (line : List Char) : Option (List Char) :=
  if "Summary: ".toList.isPrefixOf line && decide (9 < line.length) then
    some (line.drop 9)
  else none

/-- Match of one line against the chain.rs regex for the Date field,
returning the capture. -/
def matchDateLine (line : List Char) : Option (List Char) :=
  if "Date: ".toList.isPrefixOf line && decide (6 < line.length) then
    some (line.drop 6)
  else none

/-- chain.rs parse_previous_hash: first line matching the Previous regex. -/
def parse_previous_hash (content : List Char) : Option (List Char) :=
  (rustLines content).findSome? matchPreviousLine

/-- chain.rs parse_summary: first line matching the Summary regex. -/
def parse_summary (content : List Char) : Option (List Char) :=
  (rustLines content).findSome? matchSummaryLine

/-- chain.rs parse_date: first line matching the Date regex. -/
def parse_date (content : List Char) : Option (List Char) :=
  (rustLines content).findSome? matchDateLine

/-- src/utils/hash.rs sha256_short: the first 8 characters of the hex
digest.  The digest itself comes from the sha2 crate and is a parameter. -/
def sha256_short (digest : List Char → List Char) (content : List Char) : List Char :=
  (digest content).take 8

/-- src/engram/worklog.rs WorklogEntry (the path field is represented by the
filename, the containing directory being explicit in each operation). -/
structure WorklogEntry where
  sequence : Nat
  short_hash : List Char
  filename : List Char
deriving Repr, DecidableEq

/-- worklog.rs WorklogEntry::from_filename: match a filename against the
anchored regex of exactly six digits, an underscore, exactly eight lowercase
hex characters and the .md extension, capturing sequence and short hash. -/
def WorklogEntry.from_filename (name : List Char) : Option WorklogEntry :=
  let d := name.take 6
  let mid := (name.drop 6).take 1
  let h := (name.drop 7).take 8
  let ext := name.drop 15
  if d.all isDigitCh && d.length == 6 && mid == ['_'] &&
      h.all isLowerHex && h.length == 8 && ext == ".md".toList then
    some ⟨digitsToNat d, h, name⟩
  else none

/-- worklog.rs EntryContent.  The chrono DateTime field is represented by
its rendering in the fixed format, which is exactly what the Display
implementation embeds in the serialization. -/
structure EntryContent where
  summary : List Char
  previous : List Char
  date : List Char
  body : List Char
deriving Repr, DecidableEq

/-- worklog.rs Display for EntryContent: the canonical serialization of an
entry, three header lines, a blank line, the separator, a blank line, and
the body verbatim. -/
def EntryContent.encode (e : EntryContent) : List Char :=
  "Summary: ".toList ++ e.summary ++ "\n".toList ++
  "Previous: ".toList ++ e.previous ++ "\n".toList ++
  "Date: ".toList ++ e.date ++ "\n\n---\n\n".toList ++ e.body

/-- Modelled from the spec: no decoder for the body exists in the sources
(chain.rs decodes only the header fields); spec sections 4.4 and 6 fix the
serialized layout, under which the body is everything after the first
occurrence of the blank-line/separator/blank-line divider. -/
def decode_body (content : List Char) : Option (List Char) :=
  afterFirst "\n\n---\n\n".toList content

/-- src/engram/draft.rs Draft. -/
structure Draft where
  summary : List Char
  body : List Char
deriving Repr, DecidableEq

/-- draft.rs DraftError. -/
inductive DraftError
  | MissingSummaryTag
  | EmptySummary
  | EmptyBody
deriving Repr, DecidableEq

/-- Scan for the closing summary tag from a position just after the opening
tag: the non-greedy capture extends to the first closing tag, and the regex
dot does not cross a newline. -/
def captureUpToClose : List Char → Option (List Char)
  | [] => none
  | c :: cs =>
    if "</summary>".toList.isPrefixOf (c :: cs) then some []
    else if c == '\n' then none
    else (captureUpToClose cs).map (c :: ·)

/-- Leftmost match of the draft.rs summary regex: at each start position in
turn, an opening tag followed on the same line by a closing tag yields the
(shortest) capture between them. -/
def findSummaryCapture : List Char → Option (List Char)
  | [] => none
  | c :: cs =>
    if "<summary>".toList.isPrefixOf (c :: cs) then
      match captureUpToClose ((c :: cs).drop 9) with
      | some cap => some cap
      | none => findSummaryCapture cs
    else findSummaryCapture cs

/-- Scan for the comment terminator on the current line: the non-greedy
comment body cannot cross a newline. -/
def skipToCommentClose : List Char → Option (List Char)
  | [] => none
  | c :: cs =>
    if "-->".toList.isPrefixOf (c :: cs) then some ((c :: cs).drop 3)
    else if c == '\n' then none
    else skipToCommentClose cs

/-- Worker for remove_html_comments.  The fuel argument only bounds the
recursion depth structurally; it starts at the length of the text and every
recursive call continues on a strictly shorter suffix, so it is never
exhausted and the zero case is unreachable. -/
def removeCommentsAux : Nat → List Char → List Char
  | 0, s => s
  | _ + 1, [] => []
  | fuel + 1, c :: cs =>
    if "<!--".toList.isPrefixOf (c :: cs) then
      match skipToCommentClose ((c :: cs).drop 4) with
      | some rest => removeCommentsAux fuel rest
      | none => c :: removeCommentsAux fuel cs
    else c :: removeCommentsAux fuel cs

/-- draft.rs remove_html_comments: delete every non-overlapping leftmost
single-line comment span. -/
def remove_html_comments (s : List Char) : List Char :=
  removeCommentsAux s.length s

/-- draft.rs Draft::parse: extract and trim the summary capture, then the
text after the first closing summary tag as the body, validating the
summary before the body. -/
def Draft.parse (content : List Char) : Except DraftError Draft :=
  match findSummaryCapture content with
  | none => .error .MissingSummaryTag
  | some cap =>
    let summary := rustTrim cap
    if summary.isEmpty then .error .EmptySummary
    else
      let bodyTail := (afterFirst "</summary>".toList content).getD content
      let body := rustTrim bodyTail
      if (rustTrim (remove_html_comments body)).isEmpty then .error .EmptyBody
      else .ok ⟨summary, body⟩

/-- verify.rs VerifyError.  The IoError case is unreachable in the model
because every listed file carries its content. -/
inductive VerifyError
  | NotInitialized
  | ChainBroken (filename expected found : List Char)
  | HashMismatch (filename content_hash filename_hash : List Char)
  | MissingPreviousLine (filename : List Char)
  | IoError
deriving Repr, DecidableEq

/-- verify.rs VerifyResult: entry count plus (filename, date) of the first
and latest entries. -/
structure VerifyResult where
  entry_count : Nat
  first_entry : Option (List Char × List Char)
  latest_entry : Option (List Char × List Char)
deriving Repr, DecidableEq

/-- verify.rs collect_entries: keep the directory entries whose names match
the worklog filename pattern, paired with their contents. -/
def collect_entries (files : List (List Char × List Char)) :
    List (WorklogEntry × List Char) :=
  files.filterMap fun f => (WorklogEntry.from_filename f.1).map fun e => (e, f.2)

/-- Insertion step of a stable sort by sequence number: a new element goes
after every element whose key is not greater, as Vec::sort_by_key keeps
equal keys in encounter order. -/
def insertBySequence (x : WorklogEntry × List Char) :
    List (WorklogEntry × List Char) → List (WorklogEntry × List Char)
  | [] => [x]
  | y :: ys =>
    if x.1.sequence < y.1.sequence then x :: y :: ys
    else y :: insertBySequence x ys

/-- The sort_by_key(|e| e.sequence) call in verify.rs: stable sort by
ascending sequence number. -/
def sortBySequence (l : List (WorklogEntry × List Char)) :
    List (WorklogEntry × List Char) :=
  l.foldl (fun acc x => insertBySequence x acc) []

/-- The date display computed in the verify.rs loop: the parsed Date field
(or unknown), truncated at the first T. -/
def dateShortOf (content : List Char) : List Char :=
  let date := (parse_date content).getD "unknown".toList
  date.takeWhile (fun c => !(c == 'T'))

/-- The per-entry loop of verify.rs verify_chain_in_dir over the sorted
entries: check the decodable Previous field against the expected link, then
the filename hash against the recomputed short hash, tracking the first and
latest entry and threading the full digest as the next expected link. -/
def verifyEntries (digest : List Char → List Char) :
    List Char → Option (List Char × List Char) → Option (List Char × List Char) →
    List (WorklogEntry × List Char) →
    Except VerifyError (Option (List Char × List Char) × Option (List Char × List Char))
  | _, first, latest, [] => .ok (first, latest)
  | expected, first, _latest, (e, content) :: rest =>
    match parse_previous_hash content with
    | none => .error (.MissingPreviousLine e.filename)
    | some embedded =>
      if embedded ≠ expected then
        .error (.ChainBroken e.filename expected embedded)
      else if sha256_short digest content ≠ e.short_hash then
        .error (.HashMismatch e.filename (sha256_short digest content) e.short_hash)
      else
        let ds := dateShortOf content
        let first' := if first.isNone then some (e.filename, ds) else first
        verifyEntries digest (digest content) first' (some (e.filename, ds)) rest

/-- verify.rs verify_chain_in_dir: require the .engram and .engram/worklog
directories, collect and sort the pattern-matching files of the worklog
directory, and walk the chain from the initial expected link none. -/
def verify_chain_in_dir (digest : List Char → List Char)
    (engramDirExists worklogDirExists : Bool)
    (worklogFiles : List (List Char × List Char)) :
    Except VerifyError VerifyResult :=
  if !(engramDirExists && worklogDirExists) then .error .NotInitialized
  else
    let entries := collect_entries worklogFiles
    if entries.isEmpty then .ok ⟨0, none, none⟩
    else
      match verifyEntries digest "none".toList none none (sortBySequence entries) with
      | .error e => .error e
      | .ok (first, latest) => .ok ⟨entries.length, first, latest⟩

/-- Specification predicate: every entry of the list, in order, passes the
three per-entry checks of the verifier loop starting from the given
expected link. -/
def chainOK (digest : List Char → List Char) :
    List Char → List (WorklogEntry × List Char) → Bool
  | _, [] => true
  | expected, (e, content) :: rest =>
    (parse_previous_hash content == some expected) &&
    (sha256_short digest content == e.short_hash) &&
    chainOK digest (digest content) rest

/-- The expected link after walking a list of entries: the full digest of
the last content, or the initial link for an empty list. -/
def chainTip (digest : List Char → List Char) :
    List Char → List (WorklogEntry × List Char) → List Char
  | expected, [] => expected
  | _, (_, content) :: rest => chainTip digest (digest content) rest

/-- The error cases of commit.rs run_commit_in_dir (io::Error values are
distinguished here by their origin). -/
inductive CommitError
  | NotInitialized
  | DraftNotFound
  | InvalidDraft (e : DraftError)
  | PreviousEntryNotFound
  | IoError
deriving Repr, DecidableEq

/-- commit.rs CommitResult. -/
structure CommitResult where
  filename : List Char
  summary : List Char
  previous : List Char
deriving Repr, DecidableEq

/-- The filesystem state a command invocation touches: existence of the
.engram, .engram/history and .engram/worklog directories, the content of
.engram/draft.md, and the (filename, content) listings of the two entry
directories.  commit.rs operates on .engram/history while init.rs,
verify.rs and status.rs operate on .engram/worklog. -/
structure EngramFS where
  engramDirExists : Bool
  historyDirExists : Bool
  worklogDirExists : Bool
  draft : Option (List Char)
  historyFiles : List (List Char × List Char)
  worklogFiles : List (List Char × List Char)
deriving Repr, DecidableEq

/-- fs::read_to_string on a file of a directory listing. -/
def readFileIn (files : List (List Char × List Char)) (name : List Char) :
    Option (List Char) :=
  (files.find? (fun f => f.1 == name)).map (·.2)

/-- fs::write on a directory listing: overwrite the named file or create
it. -/
def writeFileIn (files : List (List Char × List Char)) (name content : List Char) :
    List (List Char × List Char) :=
  if files.any (fun f => f.1 == name) then
    files.map (fun f => if f.1 == name then (name, content) else f)
  else files ++ [(name, content)]

/-- commit.rs get_next_sequence: 1 when the history directory is missing,
otherwise one more than the maximum sequence parsed from the directory's
pattern-matching filenames (0 when none match). -/
def get_next_sequence (historyDirExists : Bool) (filenames : List (List Char)) : Nat :=
  if !historyDirExists then 1
  else
    (filenames.foldl
      (fun mx n =>
        match WorklogEntry.from_filename n with
        | some e => if mx < e.sequence then e.sequence else mx
        | none => mx)
      0) + 1

/-- commit.rs get_previous_hash: none for sequence 1, otherwise the full
digest of the first directory entry whose parsed sequence is one less,
failing when no such entry exists. -/
def get_previous_hash (digest : List Char → List Char)
    (files : List (List Char × List Char)) (sequence : Nat) :
    Except CommitError (List Char) :=
  if sequence == 1 then .ok "none".toList
  else
    match files.findSome?
        (fun f =>
          match WorklogEntry.from_filename f.1 with
          | some e => if e.sequence == sequence - 1 then some f.2 else none
          | none => none) with
    | some content => .ok (digest content)
    | none => .error .PreviousEntryNotFound

/-- templates/draft.rs DRAFT_TEMPLATE, the empty draft the commit resets
to. -/
def DRAFT_TEMPLATE : List Char :=
  ("<summary></summary>\n\n## Intent\n<!-- Why was this change made? What problem does it solve? -->\n\n## Changes\n<!-- List specific files and functions modified -->\n\n## Verification\n<!-- How did you test or validate this change? -->\n").toList

/-- Modelled from the spec: templates/summary.rs is absent from the
sources; spec section 6 fixes the index ledger as a table whose header rows
are skipped on re-reading, and the init tests require the header row shown
here.  No claim depends on the exact text. -/
def SUMMARY_TEMPLATE : List Char :=
  "# Engram Worklog\n\n| Entry | Summary |\n|-------|---------|\n".toList

/-- summary.rs append_entry's row: a table row mapping filename to
summary. -/
def summaryRow (filename summary : List Char) : List Char :=
  "| ".toList ++ filename ++ " | ".toList ++ summary ++ " |\n".toList

/-- commit.rs run_commit_in_dir, threading the explicit filesystem state:
validate the environment, parse the draft, allocate the sequence, derive
the previous link, serialize, hash and persist the entry under its
three-digit-padded filename in .engram/history, append the index row to
.engram/history/SUMMARY.md, and reset the draft.  The resulting state is
returned alongside the result so that failures expose what was (not)
mutated; fs::write of the entry fails when the history directory does not
exist. -/
def run_commit_in_dir (digest : List Char → List Char) (now : List Char)
    (fs : EngramFS) : Except CommitError CommitResult × EngramFS :=
  if !fs.engramDirExists then (.error .NotInitialized, fs)
  else
    match fs.draft with
    | none => (.error .DraftNotFound, fs)
    | some draftContent =>
      match Draft.parse draftContent with
      | .error e => (.error (.InvalidDraft e), fs)
      | .ok draft =>
        let sequence := get_next_sequence fs.historyDirExists (fs.historyFiles.map (·.1))
        match get_previous_hash digest fs.historyFiles sequence with
        | .error e => (.error e, fs)
        | .ok prevHash =>
          let entryContent := EntryContent.encode ⟨draft.summary, prevHash, now, draft.body⟩
          let shortHash := sha256_short digest entryContent
          let filename := formatSeq3 sequence ++ '_' :: (shortHash ++ ".md".toList)
          if !fs.historyDirExists then (.error .IoError, fs)
          else
            let fs1 := { fs with historyFiles := writeFileIn fs.historyFiles filename entryContent }
            match readFileIn fs1.historyFiles "SUMMARY.md".toList with
            | none => (.error .IoError, fs1)
            | some summaryContent =>
              let newSummary := summaryContent ++ summaryRow filename draft.summary
              let fs2 := { fs1 with historyFiles := writeFileIn fs1.historyFiles "SUMMARY.md".toList newSummary }
              let fs3 := { fs2 with draft := some DRAFT_TEMPLATE }
              (.ok ⟨filename, draft.summary, prevHash⟩, fs3)

/-- Modelled from the claim wording of the Sequence Allocator (spec section
4.3): parse a filename against the pattern of one or more digits, an
underscore, eight lowercase hex characters and the .md extension. -/
def specSeqOfFilename (name : List Char) : Option Nat :=
  let ds := name.takeWhile isDigitCh
  let rest := name.dropWhile isDigitCh
  if !ds.isEmpty && rest.take 1 == ['_'] && ((rest.drop 1).take 8).all isLowerHex &&
      ((rest.drop 1).take 8).length == 8 && rest.drop 9 == ".md".toList then
    some (digitsToNat ds)
  else none

/-- Modelled from the claim wording of the Sequence Allocator (spec section
4.3): the maximum sequence parsed under the digits-of-any-width pattern
plus one, or 1 when no filename matches. -/
def spec_next_sequence (filenames : List (List Char)) : Nat :=
  let seqs := filenames.filterMap specSeqOfFilename
  if seqs.isEmpty then 1 else seqs.foldr max 0 + 1

/-! Concrete fixtures used to evaluate the models. -/

/-- A concrete stand-in digest: constant 64-character output. -/
def digest0 : List Char → List Char := fun _ => List.replicate 64 'e'

/-- A concrete commit timestamp in the fixed format. -/
def now0 : List Char := "2025-06-12T14:32:07Z".toList

/-- A populated draft for a first commit. -/
def wDraftA : List Char :=
  "<summary>First commit</summary>\n\n## Intent\nWork A".toList

/-- A populated draft for a second commit. -/
def wDraftB : List Char :=
  "<summary>Second commit</summary>\n\n## Intent\nWork B".toList

/-- A store in which every directory commit.rs or verify.rs touches exists
(the .engram/history directory as in the commit.rs test setup, the
.engram/worklog directory as created by init.rs), with the index file in
both and a populated draft. -/
def fsInit3 : EngramFS :=
  ⟨true, true, true, some wDraftA,
   [("SUMMARY.md".toList, SUMMARY_TEMPLATE)],
   [("SUMMARY.md".toList, SUMMARY_TEMPLATE)]⟩

/-- The store exactly as init.rs leaves it (only .engram and .engram/worklog
exist, .engram/history does not), with a populated draft. -/
def fsFreshInit : EngramFS :=
  ⟨true, false, true, some wDraftA, [],
   [("SUMMARY.md".toList, SUMMARY_TEMPLATE)]⟩

/-- The state after the first commit on fsInit3, with the draft repopulated
for a second commit. -/
def fsAfterFirst : EngramFS :=
  { (run_commit_in_dir digest0 now0 fsInit3).2 with draft := some wDraftB }

/-- A 64-character lowercase hex value. -/
def wHashA : List Char := List.replicate 64 'a'

/-- A second 64-character lowercase hex value. -/
def wHashB : List Char := List.replicate 64 'b'

/-- A third 64-character lowercase hex value. -/
def wHashC : List Char := List.replicate 64 'c'

/-- A serialized first entry whose Previous field is none. -/
def wContent1 : List Char :=
  "Summary: First\nPrevious: none\nDate: 2025-06-12T14:32:07Z\n\n---\n\nBody one".toList

/-- A serialized second entry whose Previous field is the digest assigned to
wContent1 by digestW. -/
def wContent2 : List Char :=
  "Summary: Second\nPrevious: ".toList ++ wHashA ++
    "\nDate: 2025-06-13T10:00:00Z\n\n---\n\nBody two".toList

/-- wContent2 with its body mutated and its Previous line intact. -/
def wContent2m : List Char :=
  "Summary: Second\nPrevious: ".toList ++ wHashA ++
    "\nDate: 2025-06-13T10:00:00Z\n\n---\n\nBody TWO tampered".toList

/-- wContent2 with its Previous field altered to a different decodable
value. -/
def wContentBadPrev : List Char :=
  "Summary: Second\nPrevious: ".toList ++ wHashC ++
    "\nDate: 2025-06-13T10:00:00Z\n\n---\n\nBody two".toList

/-- A toy digest distinguishing the fixture contents, injective on them. -/
def digestW : List Char → List Char := fun c =>
  if c == wContent1 then wHashA else if c == wContent2 then wHashB else wHashC

/-- fsInit3 with a draft whose summary tag is empty and whose body is a
single comment. -/
def fsC8 : EngramFS :=
  { fsInit3 with draft := some "<summary></summary>\n\n<!-- template comment -->".toList }

/-- A non-empty single line of text: free of the line terminator characters
newline and carriage return. -/
def cleanLine (s : List Char) : Bool :=
  !s.isEmpty && s.all (fun c => !(c == '\n') && !(c == '\r'))

/-- The fixed timestamp format written by the entry codec (the chrono
format string of worklog.rs): four digit groups separated by dashes,
colons, the T divider and the trailing Z. -/
def isTimestampShape (d : List Char) : Bool :=
  match d with
  | [y1, y2, y3, y4, c1, m1, m2, c2, d1, d2, t, h1, h2, c3, n1, n2, c4, s1, s2, z] =>
    [y1, y2, y3, y4, m1, m2, d1, d2, h1, h2, n1, n2, s1, s2].all isDigitCh &&
    c1 == '-' && c2 == '-' && t == 'T' && c3 == ':' && c4 == ':' && z == 'Z'
  | _ => false

/-- The sequence extracted from one filename by the allocator. -/
def seqOf (n : List Char) : Option Nat :=
  (WorklogEntry.from_filename n).map (·.sequence)

/-- The WorklogEntry parsed from the first fixture filename. -/
def wEntryRec1 : WorklogEntry := ⟨1, "aaaaaaaa".toList, "000001_aaaaaaaa.md".toList⟩

/-- The WorklogEntry parsed from the second fixture filename. -/
def wEntryRec2 : WorklogEntry := ⟨2, "bbbbbbbb".toList, "000002_bbbbbbbb.md".toList⟩

/-- A serialized entry with no Previous line at all. -/
def wNoPrev : List Char :=
  "Summary: First\nDate: 2025-06-12T14:32:07Z\n\n---\n\nBody".toList

/-- A worklog listing with sequence numbers 1 and 3 (a gap), listed out of
order, forming a correct chain under digestW. -/
def filesGap : List (List Char × List Char) :=
  [("000003_bbbbbbbb.md".toList, wContent2), ("000001_aaaaaaaa.md".toList, wContent1)]

/-- A concrete codec fixture for the round-trip property. -/
def wEntryContent : EntryContent :=
  ⟨"Did things".toList, "none".toList, "2025-06-12T14:32:07Z".toList,
   "Body\n<!-- c -->".toList⟩

/-!
Theorems.  Each claim of CLAIMS.json is settled by the theorem carrying its
identifier; shared lemmas precede them.
-/

/-- C1: the testable property fails on the code.  On a store where every
directory exists (as in the commit.rs test setup), one commit of a valid
draft succeeds — writing a three-digit-prefixed filename into
.engram/history — yet the Chain Verifier, which scans .engram/worklog for
six-digit filenames, still reports zero entries instead of one; and on a
store exactly as init.rs leaves it (no .engram/history), the commit itself
already fails with an I/O error, so no commit can succeed at all. -/
theorem C1_verifier_misses_committed_entry :
    (run_commit_in_dir digest0 now0 fsInit3).1 =
      .ok ⟨"001_eeeeeeee.md".toList, "First commit".toList, "none".toList⟩ ∧
    verify_chain_in_dir digest0 true true
      (run_commit_in_dir digest0 now0 fsInit3).2.worklogFiles = .ok ⟨0, none, none⟩ ∧
    run_commit_in_dir digest0 now0 fsFreshInit = (.error .IoError, fsFreshInit) := by
  decide

/-- C2: sequence assignment fails on the code.  Two successive successful
commits on the same store are both assigned sequence 1: the first entry's
three-digit filename is invisible to the six-digit pattern of
get_next_sequence, so the second commit reuses sequence 1 (with previous
link none), violating uniqueness and strict increase. -/
theorem C2_sequence_number_reused :
    (run_commit_in_dir digest0 now0 fsInit3).1 =
      .ok ⟨"001_eeeeeeee.md".toList, "First commit".toList, "none".toList⟩ ∧
    (run_commit_in_dir digest0 now0 fsAfterFirst).1 =
      .ok ⟨"001_eeeeeeee.md".toList, "Second commit".toList, "none".toList⟩ := by
  decide

/-- C8: committing a draft that fails input validation returns the
input-validation error and returns the store state entirely unchanged: no
entry file, no index append, no draft reset. -/
theorem C8_invalid_draft_leaves_store_unchanged
    (digest : List Char → List Char) (now : List Char) (fs : EngramFS)
    (d : List Char) (e : DraftError)
    (hinit : fs.engramDirExists = true)
    (hdraft : fs.draft = some d)
    (hparse : Draft.parse d = .error e) :
    run_commit_in_dir digest now fs = (.error (.InvalidDraft e), fs) := by
  simp [run_commit_in_dir, hinit, hdraft, hparse]

/-- Witness for C8 at a concrete store: a draft with an empty summary tag
and a comment-only body fails with the EmptySummary validation error and
the store is unchanged. -/
theorem C8_invalid_draft_witness :
    run_commit_in_dir digest0 now0 fsC8 =
      (.error (.InvalidDraft .EmptySummary), fsC8) :=
  C8_invalid_draft_leaves_store_unchanged digest0 now0 fsC8
    "<summary></summary>\n\n<!-- template comment -->".toList .EmptySummary
    rfl rfl (by decide)

/-- C10: draft parsing validates the summary before the body: any document
with a summary tag pair whose trimmed capture is empty parses to
EmptySummary, never EmptyBody, even when the body is empty or comment-only
as well. -/
theorem C10_empty_summary_before_empty_body
    (content cap : List Char)
    (hcap : findSummaryCapture content = some cap)
    (hempty : rustTrim cap = [])
    (_hbody : rustTrim (remove_html_comments (rustTrim
      ((afterFirst "</summary>".toList content).getD content))) = []) :
    Draft.parse content = .error .EmptySummary ∧
    Draft.parse content ≠ .error .EmptyBody := by
  have h : Draft.parse content = .error .EmptySummary := by
    unfold Draft.parse
    rw [hcap]
    simp [hempty]
  exact ⟨h, by rw [h]; simp⟩

/-- Witness for C10 at a concrete document with a whitespace-only summary
and a comment-only body. -/
theorem C10_empty_summary_witness :
    Draft.parse "<summary> </summary>\n<!-- x -->".toList = .error .EmptySummary ∧
    Draft.parse "<summary> </summary>\n<!-- x -->".toList ≠ .error .EmptyBody :=
  C10_empty_summary_before_empty_body
    "<summary> </summary>\n<!-- x -->".toList " ".toList
    (by decide) (by decide) (by decide)

/-- The max-accumulating fold of get_next_sequence equals the maximum of
the parsed sequences. -/
theorem foldl_seqmax (l : List (List Char)) : ∀ a : Nat,
    l.foldl
      (fun mx n =>
        match WorklogEntry.from_filename n with
        | some e => if mx < e.sequence then e.sequence else mx
        | none => mx)
      a
    = max a ((l.filterMap seqOf).foldr max 0) := by
  induction l with
  | nil => intro a; simp
  | cons x l ih =>
    intro a
    simp only [List.foldl_cons, List.filterMap_cons]
    cases hx : WorklogEntry.from_filename x with
    | none => simp [seqOf, hx, ih]
    | some e =>
      simp only [seqOf, hx, Option.map_some', List.foldr_cons]
      rw [ih]
      have h1 : (if a < e.sequence then e.sequence else a) = max a e.sequence := by
        rcases Nat.lt_or_ge a e.sequence with h | h
        · simp [h, Nat.max_eq_right (Nat.le_of_lt h)]
        · simp [Nat.not_lt.mpr h, Nat.max_eq_left h]
      rw [h1, Nat.max_assoc]

/-- The fold of max over a list is invariant under permutation. -/
theorem foldr_max_perm {l l' : List Nat} (h : l.Perm l') :
    l.foldr max 0 = l'.foldr max 0 := by
  induction h with
  | nil => rfl
  | cons x _ ih => simp [ih]
  | swap x y l => simp only [List.foldr_cons]; rw [Nat.max_left_comm]
  | trans _ _ ih1 ih2 => exact ih1.trans ih2

/-- C5 counterexample: a filename of three digits, an underscore, eight hex
characters and the .md extension matches the claimed pattern of
digits-underscore-8-hex, so under the claim the allocator would return 2,
but the code ignores it (its pattern requires exactly six digits) and
returns 1. -/
theorem C5_counterexample_three_digit_filename :
    get_next_sequence true ["001_a1b2c3d4.md".toList] = 1 ∧
    spec_next_sequence ["001_a1b2c3d4.md".toList] = 2 := by
  decide

/-- C5 amended: the Sequence Allocator returns max(sequence numbers parsed
from filenames matching the fixed pattern of exactly six digits, an
underscore, eight lowercase hex characters and the .md extension) + 1, or 1
if no filename matches; non-matching filenames are ignored and the result
is independent of the order in which filenames are visited. -/
theorem C5_next_sequence_amended :
    (∀ ns : List (List Char),
      get_next_sequence true ns = (ns.filterMap seqOf).foldr max 0 + 1) ∧
    (∀ ns : List (List Char), (∀ n ∈ ns, WorklogEntry.from_filename n = none) →
      get_next_sequence true ns = 1) ∧
    (∀ ns ns' : List (List Char), ns.Perm ns' →
      get_next_sequence true ns = get_next_sequence true ns') := by
  have key : ∀ ns : List (List Char),
      get_next_sequence true ns = (ns.filterMap seqOf).foldr max 0 + 1 := by
    intro ns
    unfold get_next_sequence
    rw [foldl_seqmax]
    simp
  refine ⟨key, ?_, ?_⟩
  · intro ns h
    rw [key]
    have : ns.filterMap seqOf = [] := by
      rw [List.filterMap_eq_nil_iff]
      intro n hn
      simp [seqOf, h n hn]
    rw [this]
    rfl
  · intro ns ns' h
    rw [key, key, foldr_max_perm (h.filterMap seqOf)]

/-- Witness for C5 at concrete filename sets: the maximum matching sequence
plus one, 1 when nothing matches, and invariance under a permutation. -/
theorem C5_next_sequence_witness :
    get_next_sequence true
      ["junk.md".toList, "000007_abcdef01.md".toList, "000002_aabbccdd.md".toList] = 8 ∧
    get_next_sequence true ["SUMMARY.md".toList] = 1 ∧
    get_next_sequence true
      ["000002_aabbccdd.md".toList, "junk.md".toList, "000007_abcdef01.md".toList] =
    get_next_sequence true
      ["junk.md".toList, "000007_abcdef01.md".toList, "000002_aabbccdd.md".toList] := by
  refine ⟨?_, ?_, ?_⟩
  · rw [C5_next_sequence_amended.1]; decide
  · exact C5_next_sequence_amended.2.1 ["SUMMARY.md".toList] (by decide)
  · exact C5_next_sequence_amended.2.2 _ _ (by decide)

/-- An entire list is a prefix of itself extended by anything. -/
theorem isPrefixOf_append_self (l t : List Char) : l.isPrefixOf (l ++ t) = true := by
  induction l with
  | nil => cases t <;> rfl
  | cons c l ih => simp [List.isPrefixOf, ih]

/-- A Boolean prefix decomposes the larger list as the prefix plus the
remainder. -/
theorem eq_append_drop_of_isPrefixOf :
    ∀ {p l : List Char}, p.isPrefixOf l = true → l = p ++ l.drop p.length := by
  intro p
  induction p with
  | nil => intro l _; simp
  | cons c p ih =>
    intro l h
    cases l with
    | nil => simp [List.isPrefixOf] at h
    | cons b l' =>
      simp only [List.isPrefixOf, Bool.and_eq_true, beq_iff_eq] at h
      obtain ⟨rfl, h2⟩ := h
      simpa using ih h2

/-- Unfolding of the chain validity predicate at a cons cell. -/
theorem chainOK_cons_iff (digest : List Char → List Char) (expected : List Char)
    (e : WorklogEntry) (content : List Char) (rest : List (WorklogEntry × List Char)) :
    chainOK digest expected ((e, content) :: rest) = true ↔
      (parse_previous_hash content = some expected ∧
       sha256_short digest content = e.short_hash ∧
       chainOK digest (digest content) rest = true) := by
  simp [chainOK, and_assoc]

/-- The expected link after an appended walk factors through the tip of the
first part. -/
theorem chainTip_append (digest : List Char → List Char)
    (l1 l2 : List (WorklogEntry × List Char)) : ∀ expected,
    chainTip digest expected (l1 ++ l2) =
      chainTip digest (chainTip digest expected l1) l2 := by
  induction l1 with
  | nil => intro expected; rfl
  | cons x l ih =>
    intro expected
    obtain ⟨e, c⟩ := x
    simp [chainTip, ih]

/-- Chain validity over an appended list splits at the append point. -/
theorem chainOK_append_iff (digest : List Char → List Char)
    (l1 l2 : List (WorklogEntry × List Char)) : ∀ expected,
    chainOK digest expected (l1 ++ l2) = true ↔
      (chainOK digest expected l1 = true ∧
       chainOK digest (chainTip digest expected l1) l2 = true) := by
  induction l1 with
  | nil => intro expected; simp [chainOK, chainTip]
  | cons x l ih =>
    intro expected
    obtain ⟨e, c⟩ := x
    simp only [List.cons_append, chainOK_cons_iff, chainTip, ih]
    tauto

/-- One passing step of the verifier loop. -/
theorem verifyEntries_cons_ok (digest : List Char → List Char) (expected : List Char)
    (e : WorklogEntry) (content : List Char) (rest : List (WorklogEntry × List Char))
    (f la : Option (List Char × List Char))
    (h1 : parse_previous_hash content = some expected)
    (h2 : sha256_short digest content = e.short_hash) :
    verifyEntries digest expected f la ((e, content) :: rest) =
      verifyEntries digest (digest content)
        (if f.isNone then some (e.filename, dateShortOf content) else f)
        (some (e.filename, dateShortOf content)) rest := by
  simp [verifyEntries, h1, h2]

/-- The failing chain-link step of the verifier loop. -/
theorem verifyEntries_cons_chainbroken (digest : List Char → List Char)
    (expected : List Char) (e : WorklogEntry) (content : List Char)
    (rest : List (WorklogEntry × List Char)) (f la : Option (List Char × List Char))
    (found : List Char)
    (h1 : parse_previous_hash content = some found)
    (h2 : found ≠ expected) :
    verifyEntries digest expected f la ((e, content) :: rest) =
      .error (.ChainBroken e.filename expected found) := by
  simp [verifyEntries, h1, h2]

/-- The failing hash-check step of the verifier loop. -/
theorem verifyEntries_cons_hashmismatch (digest : List Char → List Char)
    (expected : List Char) (e : WorklogEntry) (content : List Char)
    (rest : List (WorklogEntry × List Char)) (f la : Option (List Char × List Char))
    (h1 : parse_previous_hash content = some expected)
    (h2 : sha256_short digest content ≠ e.short_hash) :
    verifyEntries digest expected f la ((e, content) :: rest) =
      .error (.HashMismatch e.filename (sha256_short digest content) e.short_hash) := by
  simp [verifyEntries, h1, h2]

/-- The missing-Previous step of the verifier loop. -/
theorem verifyEntries_cons_missing (digest : List Char → List Char)
    (expected : List Char) (e : WorklogEntry) (content : List Char)
    (rest : List (WorklogEntry × List Char)) (f la : Option (List Char × List Char))
    (h1 : parse_previous_hash content = none) :
    verifyEntries digest expected f la ((e, content) :: rest) =
      .error (.MissingPreviousLine e.filename) := by
  simp [verifyEntries, h1]

/-- The verifier loop walks a valid prefix without error, ending at its
tip with some accumulator values. -/
theorem verifyEntries_append_of_chainOK (digest : List Char → List Char)
    (pre : List (WorklogEntry × List Char)) :
    ∀ expected f la rest, chainOK digest expected pre = true →
    ∃ f' la', verifyEntries digest expected f la (pre ++ rest) =
      verifyEntries digest (chainTip digest expected pre) f' la' rest := by
  induction pre with
  | nil => intro expected f la rest _; exact ⟨f, la, rfl⟩
  | cons x pre ih =>
    intro expected f la rest h
    obtain ⟨e, c⟩ := x
    rw [chainOK_cons_iff] at h
    obtain ⟨h1, h2, h3⟩ := h
    rw [List.cons_append, verifyEntries_cons_ok digest expected e c (pre ++ rest) f la h1 h2]
    simpa [chainTip] using ih (digest c) _ _ rest h3

/-- The verifier loop succeeds on any fully valid list. -/
theorem verifyEntries_ok_of_chainOK (digest : List Char → List Char)
    (l : List (WorklogEntry × List Char)) :
    ∀ expected f la, chainOK digest expected l = true →
    ∃ fl, verifyEntries digest expected f la l = .ok fl := by
  induction l with
  | nil => intro expected f la _; exact ⟨(f, la), rfl⟩
  | cons x l ih =>
    intro expected f la h
    obtain ⟨e, c⟩ := x
    rw [chainOK_cons_iff] at h
    obtain ⟨h1, h2, h3⟩ := h
    rw [verifyEntries_cons_ok digest expected e c l f la h1 h2]
    exact ih _ _ _ h3

/-- On a non-empty collection the verifier is the match on its loop. -/
theorem verify_chain_eq_match (digest : List Char → List Char)
    (files : List (List Char × List Char))
    (hne : (collect_entries files).isEmpty = false) :
    verify_chain_in_dir digest true true files =
      (match verifyEntries digest "none".toList none none
          (sortBySequence (collect_entries files)) with
       | .error e => .error e
       | .ok (first, latest) => .ok ⟨(collect_entries files).length, first, latest⟩) := by
  unfold verify_chain_in_dir
  simp [hne]

/-- A sorted collection with a cons shape comes from a non-empty
collection. -/
theorem collect_nonempty_of_sorted_cons (files : List (List Char × List Char))
    (pre : List (WorklogEntry × List Char)) (x : WorklogEntry × List Char)
    (tail : List (WorklogEntry × List Char))
    (hfiles : sortBySequence (collect_entries files) = pre ++ x :: tail) :
    (collect_entries files).isEmpty = false := by
  cases hcol : collect_entries files with
  | nil =>
    rw [hcol] at hfiles
    simp only [sortBySequence, List.foldl_nil] at hfiles
    exact absurd hfiles.symm (by simp)
  | cons y ys => rfl

/-- C9: the verifier never checks that sequences start at 1 or are
contiguous: whenever the ascending-by-sequence ordering of the collected
entries forms a correct hash chain from the initial link none, verification
succeeds and reports the total count of pattern-matching files, whatever
the sequence numbers are. -/
theorem C9_verify_ignores_sequence_numbering (digest : List Char → List Char)
    (files : List (List Char × List Char))
    (h : chainOK digest "none".toList (sortBySequence (collect_entries files)) = true) :
    ∃ r, verify_chain_in_dir digest true true files = .ok r ∧
      r.entry_count = (collect_entries files).length := by
  cases hcol : (collect_entries files).isEmpty with
  | false =>
    rw [verify_chain_eq_match digest files hcol]
    obtain ⟨fl, hfl⟩ := verifyEntries_ok_of_chainOK digest _ _ none none h
    obtain ⟨f1, l1⟩ := fl
    rw [hfl]
    exact ⟨⟨(collect_entries files).length, f1, l1⟩, rfl, rfl⟩
  | true =>
    have hnil : collect_entries files = [] := List.isEmpty_iff.mp hcol
    refine ⟨⟨0, none, none⟩, ?_, by rw [hnil]; rfl⟩
    unfold verify_chain_in_dir
    simp [hcol]

/-- Witness for C9: a chain whose sequences are 1 and 3 (a gap, listed out
of order) verifies successfully with entry count 2. -/
theorem C9_gap_witness :
    verify_chain_in_dir digestW true true filesGap =
      .ok ⟨2, some ("000001_aaaaaaaa.md".toList, "2025-06-12".toList),
             some ("000003_bbbbbbbb.md".toList, "2025-06-13".toList)⟩ := by
  have _h := C9_verify_ignores_sequence_numbering digestW filesGap (by decide)
  decide

/-- C3: on a valid persisted chain, replacing the content of the entry at
position k by a mutation that leaves the Previous line decoding unchanged
but changes the short digest makes verification fail with HashMismatch at
that entry, carrying the recomputed and claimed hashes; the chain-link
check at k still passes (its decoded Previous equals the expected link) and
the result holds for every tail, so no later entry is examined. -/
theorem C3_body_mutation_hash_mismatch (digest : List Char → List Char)
    (files : List (List Char × List Char))
    (pre : List (WorklogEntry × List Char)) (ek : WorklogEntry)
    (ck ck' : List Char) (tail0 tail : List (WorklogEntry × List Char))
    (hvalid : chainOK digest "none".toList (pre ++ (ek, ck) :: tail0) = true)
    (hprev : parse_previous_hash ck' = parse_previous_hash ck)
    (hmut : sha256_short digest ck' ≠ sha256_short digest ck)
    (hfiles : sortBySequence (collect_entries files) = pre ++ (ek, ck') :: tail) :
    verify_chain_in_dir digest true true files =
      .error (.HashMismatch ek.filename (sha256_short digest ck') ek.short_hash) := by
  rw [chainOK_append_iff] at hvalid
  obtain ⟨hpre, hk⟩ := hvalid
  rw [chainOK_cons_iff] at hk
  obtain ⟨hk1, hk2, -⟩ := hk
  have hne := collect_nonempty_of_sorted_cons files pre (ek, ck') tail hfiles
  rw [verify_chain_eq_match digest files hne, hfiles]
  obtain ⟨f', la', heq⟩ :=
    verifyEntries_append_of_chainOK digest pre "none".toList none none ((ek, ck') :: tail) hpre
  rw [heq]
  have hparse' : parse_previous_hash ck' = some (chainTip digest "none".toList pre) :=
    hprev.trans hk1
  have hh : sha256_short digest ck' ≠ ek.short_hash := by
    rw [← hk2]; exact hmut
  rw [verifyEntries_cons_hashmismatch digest _ ek ck' tail f' la' hparse' hh]

/-- Witness for C3: mutating the body of the second fixture entry (its
Previous line intact) yields HashMismatch there with the recomputed and
claimed short hashes. -/
theorem C3_mutation_witness :
    verify_chain_in_dir digestW true true
      [("000001_aaaaaaaa.md".toList, wContent1), ("000002_bbbbbbbb.md".toList, wContent2m)] =
      .error (.HashMismatch wEntryRec2.filename (sha256_short digestW wContent2m)
        wEntryRec2.short_hash) :=
  C3_body_mutation_hash_mismatch digestW
    [("000001_aaaaaaaa.md".toList, wContent1), ("000002_bbbbbbbb.md".toList, wContent2m)]
    [(wEntryRec1, wContent1)] wEntryRec2 wContent2 wContent2m [] []
    (by decide) (by decide) (by decide) (by decide)

/-- C4: at the first entry (in ascending sequence order) whose decoded
previous-link differs from the expected link, the verifier returns the
terminal ChainBroken error carrying that entry's filename, the expected
value and the found (here: altered) value, for every tail — so no further
entry is checked; and for a non-empty prefix the expected value is the full
digest of the preceding entry's content. -/
theorem C4_chain_broken_at_divergence (digest : List Char → List Char)
    (files : List (List Char × List Char))
    (pre : List (WorklogEntry × List Char)) (ek : WorklogEntry)
    (ck : List Char) (tail : List (WorklogEntry × List Char)) (found : List Char)
    (hpre : chainOK digest "none".toList pre = true)
    (hfound : parse_previous_hash ck = some found)
    (hne : found ≠ chainTip digest "none".toList pre)
    (hfiles : sortBySequence (collect_entries files) = pre ++ (ek, ck) :: tail) :
    verify_chain_in_dir digest true true files =
      .error (.ChainBroken ek.filename (chainTip digest "none".toList pre) found) ∧
    ∀ p lastE lastC, pre = p ++ [(lastE, lastC)] →
      chainTip digest "none".toList pre = digest lastC := by
  constructor
  · have hneC := collect_nonempty_of_sorted_cons files pre (ek, ck) tail hfiles
    rw [verify_chain_eq_match digest files hneC, hfiles]
    obtain ⟨f', la', heq⟩ :=
      verifyEntries_append_of_chainOK digest pre "none".toList none none ((ek, ck) :: tail) hpre
    rw [heq, verifyEntries_cons_chainbroken digest _ ek ck tail f' la' found hfound hne]
  · rintro p lastE lastC rfl
    rw [chainTip_append]
    rfl

/-- Witness for C4: altering the Previous field of the second fixture entry
to a different decodable value yields ChainBroken there with expected = the
digest of the first entry's content and found = the altered value. -/
theorem C4_altered_previous_witness :
    verify_chain_in_dir digestW true true
      [("000001_aaaaaaaa.md".toList, wContent1), ("000002_bbbbbbbb.md".toList, wContentBadPrev)] =
      .error (.ChainBroken wEntryRec2.filename
        (chainTip digestW "none".toList [(wEntryRec1, wContent1)]) wHashC) ∧
    chainTip digestW "none".toList [(wEntryRec1, wContent1)] = digestW wContent1 :=
  ⟨(C4_chain_broken_at_divergence digestW
      [("000001_aaaaaaaa.md".toList, wContent1), ("000002_bbbbbbbb.md".toList, wContentBadPrev)]
      [(wEntryRec1, wContent1)] wEntryRec2 wContentBadPrev [] wHashC
      (by decide) (by decide) (by decide) (by decide)).1,
   (C4_chain_broken_at_divergence digestW
      [("000001_aaaaaaaa.md".toList, wContent1), ("000002_bbbbbbbb.md".toList, wContentBadPrev)]
      [(wEntryRec1, wContent1)] wEntryRec2 wContentBadPrev [] wHashC
      (by decide) (by decide) (by decide) (by decide)).2
     [] wEntryRec1 wContent1 rfl⟩

/-- A Previous line match is exactly a decomposition into the tag and a
valid value. -/
theorem matchPreviousLine_eq_some_iff {l v : List Char} :
    matchPreviousLine l = some v ↔
      (l = "Previous: ".toList ++ v ∧ isPrevValue v = true) := by
  unfold matchPreviousLine
  constructor
  · intro h
    split at h
    · next hp =>
      split at h
      · next hv =>
        obtain rfl : l.drop 10 = v := by injection h
        have hdec := eq_append_drop_of_isPrefixOf hp
        have hlen : ("Previous: ".toList).length = 10 := rfl
        rw [hlen] at hdec
        exact ⟨hdec, hv⟩
      · exact absurd h (by simp)
    · exact absurd h (by simp)
  · rintro ⟨rfl, hv⟩
    have hp : ("Previous: ".toList).isPrefixOf ("Previous: ".toList ++ v) = true :=
      isPrefixOf_append_self _ _
    have hdrop : ("Previous: ".toList ++ v).drop 10 = v := by
      rw [show 10 = ("Previous: ".toList).length from rfl, List.drop_left]
    rw [if_pos hp, hdrop, if_pos hv]

/-- C7: decoding the previous-link of a content succeeds exactly when some
line is the Previous tag followed by the literal none or a 64-character
lowercase hex string; and when an entry has no decodable Previous field
(while every earlier entry is valid), the verifier reports
MissingPreviousLine at that entry for every tail. -/
theorem C7_previous_link_decoding :
    (∀ content : List Char, (parse_previous_hash content).isSome = true ↔
      ∃ l ∈ rustLines content, ∃ v,
        l = "Previous: ".toList ++ v ∧ isPrevValue v = true) ∧
    (∀ (digest : List Char → List Char) (files : List (List Char × List Char))
        (pre : List (WorklogEntry × List Char)) (e : WorklogEntry) (c : List Char)
        (tail : List (WorklogEntry × List Char)),
      chainOK digest "none".toList pre = true →
      parse_previous_hash c = none →
      sortBySequence (collect_entries files) = pre ++ (e, c) :: tail →
      verify_chain_in_dir digest true true files =
        .error (.MissingPreviousLine e.filename)) := by
  constructor
  · intro content
    unfold parse_previous_hash
    rw [Option.isSome_iff_ne_none, ne_eq, List.findSome?_eq_none_iff]
    push_neg
    constructor
    · rintro ⟨l, hl, hsome⟩
      obtain ⟨v, hv⟩ := Option.ne_none_iff_exists'.mp hsome
      obtain ⟨h1, h2⟩ := matchPreviousLine_eq_some_iff.mp hv
      exact ⟨l, hl, v, h1, h2⟩
    · rintro ⟨l, hl, v, h1, h2⟩
      refine ⟨l, hl, ?_⟩
      rw [matchPreviousLine_eq_some_iff.mpr ⟨h1, h2⟩]
      simp
  · intro digest files pre e c tail hpre hnone hfiles
    have hneC := collect_nonempty_of_sorted_cons files pre (e, c) tail hfiles
    rw [verify_chain_eq_match digest files hneC, hfiles]
    obtain ⟨f', la', heq⟩ :=
      verifyEntries_append_of_chainOK digest pre "none".toList none none ((e, c) :: tail) hpre
    rw [heq, verifyEntries_cons_missing digest _ e c tail f' la' hnone]

/-- Witness for C7: a content whose Previous line carries the literal none
decodes, and an entry with no decodable Previous line makes the verifier
report MissingPreviousLine at it. -/
theorem C7_previous_link_witness :
    (parse_previous_hash "Previous: none".toList).isSome = true ∧
    verify_chain_in_dir digestW true true [("000001_aaaaaaaa.md".toList, wNoPrev)] =
      .error (.MissingPreviousLine "000001_aaaaaaaa.md".toList) :=
  ⟨(C7_previous_link_decoding.1 "Previous: none".toList).mpr
     ⟨"Previous: none".toList, by decide, "none".toList, by decide, by decide⟩,
   C7_previous_link_decoding.2 digestW [("000001_aaaaaaaa.md".toList, wNoPrev)]
     [] wEntryRec1 wNoPrev [] rfl (by decide) (by decide)⟩

/-- A lowercase hex character is not a line terminator. -/
theorem not_nl_cr_of_isLowerHex {c : Char} (h : isLowerHex c = true) :
    (!(c == '\n') && !(c == '\r')) = true := by
  have h1 : c ≠ '\n' := fun hc => absurd (hc ▸ h) (by decide)
  have h2 : c ≠ '\r' := fun hc => absurd (hc ▸ h) (by decide)
  simp [beq_eq_false_iff_ne.mpr h1, beq_eq_false_iff_ne.mpr h2]

/-- A decimal digit is not a line terminator. -/
theorem not_nl_cr_of_isDigitCh {c : Char} (h : isDigitCh c = true) :
    (!(c == '\n') && !(c == '\r')) = true :=
  not_nl_cr_of_isLowerHex (by simp [isLowerHex, h])

/-- A valid Previous value is a non-empty single line. -/
theorem cleanLine_of_isPrevValue {v : List Char} (h : isPrevValue v = true) :
    cleanLine v = true := by
  unfold isPrevValue at h
  rcases (Bool.or_eq_true _ _).mp h with h | h
  · rw [show v = "none".toList from by simpa using h]
    decide
  · obtain ⟨hlen, hall⟩ := (Bool.and_eq_true _ _).mp h
    unfold cleanLine
    apply (Bool.and_eq_true _ _).mpr
    refine ⟨?_, ?_⟩
    · have hv : v ≠ [] := by
        intro hv
        rw [hv] at hlen
        exact absurd hlen (by decide)
      cases v with
      | nil => exact absurd rfl hv
      | cons a l => rfl
    · rw [List.all_eq_true] at hall ⊢
      intro c hc
      exact not_nl_cr_of_isLowerHex (hall c hc)

/-- A timestamp in the fixed format is a non-empty single line. -/
theorem cleanLine_of_isTimestampShape {d : List Char} (h : isTimestampShape d = true) :
    cleanLine d = true := by
  unfold isTimestampShape at h
  split at h
  · next y1 y2 y3 y4 c1 m1 m2 c2 d1 d2 t h1 h2 c3 n1 n2 c4 s1 s2 z =>
    simp only [Bool.and_eq_true, beq_iff_eq] at h
    obtain ⟨⟨⟨⟨⟨⟨hall, rfl⟩, rfl⟩, rfl⟩, rfl⟩, rfl⟩, rfl⟩ := h
    rw [List.all_eq_true] at hall
    refine (Bool.and_eq_true _ _).mpr ⟨rfl, ?_⟩
    rw [List.all_eq_true]
    intro c hc
    simp only [List.mem_cons, List.not_mem_nil, or_false] at hc
    rcases hc with rfl | rfl | rfl | rfl | rfl | rfl | rfl | rfl | rfl | rfl |
      rfl | rfl | rfl | rfl | rfl | rfl | rfl | rfl | rfl | rfl
    all_goals first
      | decide
      | exact not_nl_cr_of_isDigitCh (hall _ (by simp))
  · exact absurd h (by simp)

/-- A clean line contains no newline. -/
theorem all_not_nl_of_cleanLine {s : List Char} (h : cleanLine s = true) :
    s.all (fun c => !(c == '\n')) = true := by
  obtain ⟨-, hall⟩ := (Bool.and_eq_true _ _).mp h
  rw [List.all_eq_true] at hall ⊢
  intro c hc
  exact ((Bool.and_eq_true _ _).mp (hall c hc)).1

/-- A clean line is non-empty. -/
theorem ne_nil_of_cleanLine {s : List Char} (h : cleanLine s = true) : s ≠ [] := by
  obtain ⟨hne, -⟩ := (Bool.and_eq_true _ _).mp h
  intro hs
  rw [hs] at hne
  exact absurd hne (by decide)

/-- Stripping a trailing carriage return leaves a list ending in a clean
line unchanged. -/
theorem stripTrailingCR_append_clean (xs s : List Char) (h : cleanLine s = true) :
    stripTrailingCR (xs ++ s) = xs ++ s := by
  obtain ⟨-, hall⟩ := (Bool.and_eq_true _ _).mp h
  unfold stripTrailingCR
  rw [List.reverse_append]
  cases hs : s.reverse with
  | nil =>
    have hs' : s = [] := by rw [← List.reverse_reverse s, hs]; rfl
    exact absurd hs' (ne_nil_of_cleanLine h)
  | cons c rest =>
    have hc : c ∈ s := by
      rw [← List.mem_reverse, hs]
      exact List.mem_cons_self c rest
    have hcr : (c == '\r') = false :=
      (Bool.not_eq_true' _).mp ((Bool.and_eq_true _ _).mp (List.all_eq_true.mp hall c hc)).2
    simp [hcr]

/-- Splitting into lines walks past a newline-free prefix up to the first
newline. -/
theorem linesGo_append_newline :
    ∀ (xs : List Char), xs.all (fun c => !(c == '\n')) = true →
    ∀ (acc rest : List Char),
      linesGo (xs ++ '\n' :: rest) acc =
        stripTrailingCR (acc.reverse ++ xs) :: linesGo rest [] := by
  intro xs
  induction xs with
  | nil =>
    intro _ acc rest
    simp [linesGo]
  | cons x xs ih =>
    intro h acc rest
    rw [List.all_cons, Bool.and_eq_true] at h
    obtain ⟨hx, hxs⟩ := h
    have hx' : (x == '\n') = false := (Bool.not_eq_true' _).mp hx
    show linesGo (x :: (xs ++ '\n' :: rest)) acc = _
    rw [show linesGo (x :: (xs ++ '\n' :: rest)) acc =
      (if (x == '\n') = true then
        stripTrailingCR acc.reverse :: linesGo (xs ++ '\n' :: rest) []
      else linesGo (xs ++ '\n' :: rest) (x :: acc)) from rfl, hx']
    rw [if_neg (by simp)]
    exact (ih hxs (x :: acc) rest).trans (by simp [List.append_assoc])

/-- The canonical serialization regrouped into its three header lines and
the divider. -/
theorem encode_regroup (e : EntryContent) :
    e.encode = ("Summary: ".toList ++ e.summary) ++ '\n' ::
      (("Previous: ".toList ++ e.previous) ++ '\n' ::
        (("Date: ".toList ++ e.date) ++
          '\n' :: '\n' :: '-' :: '-' :: '-' :: '\n' :: '\n' :: e.body)) := by
  unfold EntryContent.encode
  simp [List.append_assoc]

/-- The lines of the canonical serialization: the three header lines, the
empty line, the divider, the empty line, then the lines of the body. -/
theorem rustLines_encode (e : EntryContent)
    (hs : cleanLine e.summary = true)
    (hp : cleanLine e.previous = true)
    (hd : cleanLine e.date = true) :
    rustLines e.encode =
      ("Summary: ".toList ++ e.summary) :: ("Previous: ".toList ++ e.previous) ::
      ("Date: ".toList ++ e.date) :: [] :: "---".toList :: [] :: rustLines e.body := by
  have hX1 : ("Summary: ".toList ++ e.summary).all (fun c => !(c == '\n')) = true := by
    rw [List.all_append, all_not_nl_of_cleanLine hs,
      show ("Summary: ".toList).all (fun c => !(c == '\n')) = true from by decide]
    rfl
  have hX2 : ("Previous: ".toList ++ e.previous).all (fun c => !(c == '\n')) = true := by
    rw [List.all_append, all_not_nl_of_cleanLine hp,
      show ("Previous: ".toList).all (fun c => !(c == '\n')) = true from by decide]
    rfl
  have hX3 : ("Date: ".toList ++ e.date).all (fun c => !(c == '\n')) = true := by
    rw [List.all_append, all_not_nl_of_cleanLine hd,
      show ("Date: ".toList).all (fun c => !(c == '\n')) = true from by decide]
    rfl
  unfold rustLines
  rw [encode_regroup]
  rw [linesGo_append_newline _ hX1 [] _]
  rw [linesGo_append_newline _ hX2 [] _]
  rw [linesGo_append_newline _ hX3 [] _]
  simp only [List.reverse_nil, List.nil_append]
  rw [stripTrailingCR_append_clean _ _ hs, stripTrailingCR_append_clean _ _ hp,
    stripTrailingCR_append_clean _ _ hd]
  rfl

/-- The summary field matcher accepts its own encoding. -/
theorem matchSummaryLine_self (s : List Char) (h : s ≠ []) :
    matchSummaryLine ("Summary: ".toList ++ s) = some s := by
  unfold matchSummaryLine
  have hp : ("Summary: ".toList).isPrefixOf ("Summary: ".toList ++ s) = true :=
    isPrefixOf_append_self _ _
  have hlen : 9 < ("Summary: ".toList ++ s).length := by
    rw [List.length_append, show ("Summary: ".toList).length = 9 from rfl]
    have := List.length_pos.mpr h
    omega
  rw [if_pos (by rw [hp, decide_eq_true hlen]; rfl)]
  rw [show (9 : Nat) = ("Summary: ".toList).length from rfl, List.drop_left]

/-- The date field matcher accepts its own encoding. -/
theorem matchDateLine_self (d : List Char) (h : d ≠ []) :
    matchDateLine ("Date: ".toList ++ d) = some d := by
  unfold matchDateLine
  have hp : ("Date: ".toList).isPrefixOf ("Date: ".toList ++ d) = true :=
    isPrefixOf_append_self _ _
  have hlen : 6 < ("Date: ".toList ++ d).length := by
    rw [List.length_append, show ("Date: ".toList).length = 6 from rfl]
    have := List.length_pos.mpr h
    omega
  rw [if_pos (by rw [hp, decide_eq_true hlen]; rfl)]
  rw [show (6 : Nat) = ("Date: ".toList).length from rfl, List.drop_left]

/-- The previous field matcher accepts its own encoding of a valid value. -/
theorem matchPreviousLine_self (p : List Char) (h : isPrevValue p = true) :
    matchPreviousLine ("Previous: ".toList ++ p) = some p :=
  matchPreviousLine_eq_some_iff.mpr ⟨rfl, h⟩

/-- Prefix test along differing heads. -/
theorem isPrefixOf_cons_ne {a b : Char} (p l : List Char) (h : (a == b) = false) :
    (a :: p).isPrefixOf (b :: l) = false := by
  simp [List.isPrefixOf, h]

/-- The previous matcher rejects a summary header line. -/
theorem matchPreviousLine_summary (s : List Char) :
    matchPreviousLine ("Summary: ".toList ++ s) = none := by
  unfold matchPreviousLine
  have hpre : ("Previous: ".toList).isPrefixOf ("Summary: ".toList ++ s) = false := by
    show ('P' :: "revious: ".toList).isPrefixOf ('S' :: ("ummary: ".toList ++ s)) = false
    exact isPrefixOf_cons_ne _ _ (by decide)
  simp [hpre]

/-- The date matcher rejects a summary header line. -/
theorem matchDateLine_summary (s : List Char) :
    matchDateLine ("Summary: ".toList ++ s) = none := by
  unfold matchDateLine
  have hpre : ("Date: ".toList).isPrefixOf ("Summary: ".toList ++ s) = false := by
    show ('D' :: "ate: ".toList).isPrefixOf ('S' :: ("ummary: ".toList ++ s)) = false
    exact isPrefixOf_cons_ne _ _ (by decide)
  simp [hpre]

/-- The date matcher rejects a previous header line. -/
theorem matchDateLine_previous (p : List Char) :
    matchDateLine ("Previous: ".toList ++ p) = none := by
  unfold matchDateLine
  have hpre : ("Date: ".toList).isPrefixOf ("Previous: ".toList ++ p) = false := by
    show ('D' :: "ate: ".toList).isPrefixOf ('P' :: ("revious: ".toList ++ p)) = false
    exact isPrefixOf_cons_ne _ _ (by decide)
  simp [hpre]

/-- The first-match scan steps past a non-matching element. -/
theorem findSome?_cons_none {α β : Type} (f : α → Option β) (a : α) (l : List α)
    (h : f a = none) : List.findSome? f (a :: l) = List.findSome? f l := by
  rw [List.findSome?_cons, h]

/-- The first-match scan returns at a matching element. -/
theorem findSome?_cons_some {α β : Type} (f : α → Option β) (a : α) (l : List α) (b : β)
    (h : f a = some b) : List.findSome? f (a :: l) = some b := by
  rw [List.findSome?_cons, h]

/-- One non-matching step of the substring search. -/
theorem afterFirst_cons_false (pat : List Char) (c : Char) (cs : List Char)
    (h : pat.isPrefixOf (c :: cs) = false) :
    afterFirst pat (c :: cs) = afterFirst pat cs := by
  rw [show afterFirst pat (c :: cs) =
    (if pat.isPrefixOf (c :: cs) = true then some (List.drop pat.length (c :: cs))
     else afterFirst pat cs) from rfl, h]
  rw [if_neg (by simp)]

/-- The matching step of the substring search. -/
theorem afterFirst_cons_true (pat : List Char) (c : Char) (cs : List Char)
    (h : pat.isPrefixOf (c :: cs) = true) :
    afterFirst pat (c :: cs) = some (List.drop pat.length (c :: cs)) := by
  rw [show afterFirst pat (c :: cs) =
    (if pat.isPrefixOf (c :: cs) = true then some (List.drop pat.length (c :: cs))
     else afterFirst pat cs) from rfl, h]
  rw [if_pos rfl]

/-- Searching for a pattern that starts with a newline skips any
newline-free prefix. -/
theorem afterFirst_skip_clean (pat' : List Char) :
    ∀ (xs : List Char), xs.all (fun c => !(c == '\n')) = true →
    ∀ rest, afterFirst ('\n' :: pat') (xs ++ rest) = afterFirst ('\n' :: pat') rest := by
  intro xs
  induction xs with
  | nil => intro _ rest; rfl
  | cons x xs ih =>
    intro h rest
    rw [List.all_cons, Bool.and_eq_true] at h
    obtain ⟨hx, hxs⟩ := h
    have hx' : ('\n' == x) = false :=
      beq_eq_false_iff_ne.mpr
        fun hh => (beq_eq_false_iff_ne.mp ((Bool.not_eq_true' _).mp hx)) hh.symm
    have hpre : ('\n' :: pat').isPrefixOf (x :: (xs ++ rest)) = false :=
      isPrefixOf_cons_ne _ _ hx'
    show afterFirst ('\n' :: pat') (x :: (xs ++ rest)) = _
    rw [afterFirst_cons_false _ _ _ hpre]
    exact ih hxs rest

/-- Searching for the divider steps past a newline that is not followed by
a second newline. -/
theorem afterFirst_sep_step (pat' : List Char) (b : Char) (hb : ('\n' == b) = false)
    (ys rest : List Char) :
    afterFirst ('\n' :: '\n' :: pat') ('\n' :: ((b :: ys) ++ rest)) =
      afterFirst ('\n' :: '\n' :: pat') ((b :: ys) ++ rest) := by
  have hpre : ('\n' :: '\n' :: pat').isPrefixOf ('\n' :: ((b :: ys) ++ rest)) = false := by
    simp [List.isPrefixOf, hb]
  exact afterFirst_cons_false _ _ _ hpre

/-- C6: decoding each field from the canonical encoding returns the
original value, for every entry whose summary is a non-empty single line,
whose previous-link is the literal none or a 64-character lowercase hex
string, and whose date is in the fixed timestamp format: the round trip
holds for summary, previous-link, date, and body. -/
theorem C6_codec_round_trip (e : EntryContent)
    (hs : cleanLine e.summary = true)
    (hp : isPrevValue e.previous = true)
    (hd : isTimestampShape e.date = true) :
    parse_summary e.encode = some e.summary ∧
    parse_previous_hash e.encode = some e.previous ∧
    parse_date e.encode = some e.date ∧
    decode_body e.encode = some e.body := by
  have hpc := cleanLine_of_isPrevValue hp
  have hdc := cleanLine_of_isTimestampShape hd
  have hlines := rustLines_encode e hs hpc hdc
  refine ⟨?_, ?_, ?_, ?_⟩
  · unfold parse_summary
    rw [hlines,
      findSome?_cons_some _ _ _ _ (matchSummaryLine_self e.summary (ne_nil_of_cleanLine hs))]
  · unfold parse_previous_hash
    rw [hlines, findSome?_cons_none _ _ _ (matchPreviousLine_summary e.summary),
      findSome?_cons_some _ _ _ _ (matchPreviousLine_self e.previous hp)]
  · unfold parse_date
    rw [hlines, findSome?_cons_none _ _ _ (matchDateLine_summary e.summary),
      findSome?_cons_none _ _ _ (matchDateLine_previous e.previous),
      findSome?_cons_some _ _ _ _ (matchDateLine_self e.date (ne_nil_of_cleanLine hdc))]
  · unfold decode_body
    rw [encode_regroup]
    have hX1 : ("Summary: ".toList ++ e.summary).all (fun c => !(c == '\n')) = true := by
      rw [List.all_append, all_not_nl_of_cleanLine hs,
        show ("Summary: ".toList).all (fun c => !(c == '\n')) = true from by decide]
      rfl
    have hX2 : ("Previous: ".toList ++ e.previous).all (fun c => !(c == '\n')) = true := by
      rw [List.all_append, all_not_nl_of_cleanLine hpc,
        show ("Previous: ".toList).all (fun c => !(c == '\n')) = true from by decide]
      rfl
    have hX3 : ("Date: ".toList ++ e.date).all (fun c => !(c == '\n')) = true := by
      rw [List.all_append, all_not_nl_of_cleanLine hdc,
        show ("Date: ".toList).all (fun c => !(c == '\n')) = true from by decide]
      rfl
    rw [show "\n\n---\n\n".toList = '\n' :: '\n' :: "---\n\n".toList from rfl]
    rw [afterFirst_skip_clean _ _ hX1]
    rw [show "Previous: ".toList ++ e.previous = 'P' :: ("revious: ".toList ++ e.previous)
      from rfl]
    rw [afterFirst_sep_step _ 'P' (by decide)]
    rw [show ('P' :: ("revious: ".toList ++ e.previous)) =
      ("Previous: ".toList ++ e.previous) from rfl]
    rw [afterFirst_skip_clean _ _ hX2]
    rw [show "Date: ".toList ++ e.date = 'D' :: ("ate: ".toList ++ e.date) from rfl]
    rw [afterFirst_sep_step _ 'D' (by decide)]
    rw [show ('D' :: ("ate: ".toList ++ e.date)) = ("Date: ".toList ++ e.date) from rfl]
    rw [afterFirst_skip_clean _ _ hX3]
    rw [afterFirst_cons_true _ _ _ (by
      rw [show "---\n\n".toList = ['-', '-', '-', '\n', '\n'] from rfl]
      simp [List.isPrefixOf])]
    rw [show ('\n' :: '\n' :: "---\n\n".toList).length = 7 from rfl]
    rfl

/-- Witness for C6 at a concrete entry. -/
theorem C6_round_trip_witness :
    parse_summary wEntryContent.encode = some wEntryContent.summary ∧
    parse_previous_hash wEntryContent.encode = some wEntryContent.previous ∧
    parse_date wEntryContent.encode = some wEntryContent.date ∧
    decode_body wEntryContent.encode = some wEntryContent.body :=
  C6_codec_round_trip wEntryContent (by decide) (by decide) (by decide)

end Engram




